import Mathlib

/-!
Shallow embedding of the Hill-continuation repository (hill_model.py,
Hopf_bifurcation.py, saddle_finding.py, create_dataset.py) over exact
rational arithmetic, together with theorems settling the frozen claims
about it.  Machine floats are modelled by `ℚ`; external numeric routines
(`numpy` powers, logarithms, square roots, norms, linear solves, random
index draws) are passed in as explicit function arguments so that every
embedded definition mirrors the Python control flow of the source.
-/

namespace HillRepo

/-! ## Numeric root-finding kernel (hill_model.py)

`skinny_newton(f, Df, x0, maxDefect)` iterates Newton at most 9 times
(`iIterate` runs from 1 while `iIterate < maxIterate = 10`), tracking the
defect `‖f(x)‖`.  The linear-solve update `x -= solve(Df(x), f(x))`
(`np.linalg.solve`, or scalar division for 1-by-1 systems) is supplied as
the `update` argument; the residual norm `‖f(·)‖` is `nrm ∘ f`. -/

/-- The while loop of `skinny_newton`: fuel counts the remaining
iterations; the body runs only while the defect exceeds `maxDefect`. -/
def newton_loop {α β : Type} (f : α → β) (nrm : β → ℚ) (update : α → α)
    (maxDefect : ℚ) : ℕ → α → α
  | 0, x => x
  | k + 1, x => if maxDefect < nrm (f x) then newton_loop f nrm update maxDefect k (update x) else x

/-- `skinny_newton` from hill_model.py: run the Newton loop, then return
the iterated point if its defect is below tolerance or improved on the
defect at the untouched start `x0`; otherwise return `x0` itself. -/
def skinny_newton {α β : Type} (f : α → β) (nrm : β → ℚ) (update : α → α)
    (maxDefect : ℚ) (x0 : α) : α :=
  if nrm (f (newton_loop f nrm update maxDefect 9 x0)) < maxDefect ∨
      nrm (f (newton_loop f nrm update maxDefect 9 x0)) < nrm (f x0) then
    newton_loop f nrm update maxDefect 9 x0
  else x0

/-- If the Newton loop left the point with defect below the tolerance,
either it never ran (the start already satisfied the exit condition) or
the start's defect was above the tolerance. -/
theorem newton_loop_start {α β : Type} (f : α → β) (nrm : β → ℚ) (update : α → α)
    (maxDefect : ℚ) (k : ℕ) (x0 : α) :
    newton_loop f nrm update maxDefect k x0 = x0 ∨ maxDefect < nrm (f x0) := by
  cases k with
  | zero => exact Or.inl rfl
  | succ k =>
      by_cases h : maxDefect < nrm (f x0)
      · exact Or.inr h
      · left
        simp [newton_loop, h]

/-! ## Evaluation guard (hill_model.py, `verify_call`)

The decorator checks the state-vector length against the owner's declared
state dimension and the (already parsed) parameter-vector length against
the owner's declared parameter count, raising `IndexError` before
dispatching to the wrapped evaluation otherwise. -/

/-- `verify_call` from hill_model.py: `N` is the owner's state dimension
(`nState` for a HillCoordinate, `dimension` for a HillModel), `M` its
`nParameter`; `p` is the parsed parameter vector.  Raised `IndexError`s
are modelled by `Except.error`. -/
def verify_call {β : Type} (N M : ℕ) (func : List ℚ → List ℚ → β)
    (x p : List ℚ) : Except String β :=
  if x.length ≠ N then
    Except.error "State vector for this evaluation has the wrong size"
  else if p.length ≠ M then
    Except.error "Parsed parameter vector for this evaluation has the wrong size"
  else
    Except.ok (func x p)

/-! ## Toggle-switch region labelling (create_dataset.py)

`associate_parameter_regionTS` bins each of the two coordinates with the
three masks `< 1`, `[1,2)`, `≥ 2` (written to an initially-zero axis
array, scalar rendering below) and returns `axes_1 * 3 + axes_2`. -/

/-- One axis of `associate_parameter_regionTS`: the scalar effect of the
three sequential mask assignments on an initially-zero entry. -/
def axisTS (q : ℚ) : ℚ :=
  if q < 1 then 0
  else if 1 ≤ q ∧ q < 2 then 1
  else if 2 ≤ q then 2
  else 0

/-- `associate_parameter_regionTS(alpha, beta) = axes_1 * 3 + axes_2`
from create_dataset.py. -/
def associate_parameter_regionTS (alpha beta : ℚ) : ℚ :=
  axisTS alpha * 3 + axisTS beta

/-- The binning described by the specification: value `< 1` maps to 0,
value in `[1,2)` maps to 1, value `≥ 2` maps to 2. -/
def axisTS_spec (q : ℚ) : ℚ :=
  if q < 1 then 0 else if q < 2 then 1 else 2

/-- Claim C8: for every pair of non-negative values, the toggle-switch
region label is `axis1 * 3 + axis2` where each axis bins its value as
`<1 ↦ 0`, `[1,2) ↦ 1`, `≥2 ↦ 2`; in particular the label is 0 when both
values are below 1, 4 when both lie in `[1,2)`, and 8 when both are at
least 2, and it depends on nothing but the two bin memberships. -/
theorem associate_parameter_regionTS_grid (alpha beta : ℚ)
    (ha : 0 ≤ alpha) (hb : 0 ≤ beta) :
    associate_parameter_regionTS alpha beta = axisTS_spec alpha * 3 + axisTS_spec beta ∧
      (alpha < 1 → beta < 1 → associate_parameter_regionTS alpha beta = 0) ∧
      (1 ≤ alpha → alpha < 2 → 1 ≤ beta → beta < 2 →
        associate_parameter_regionTS alpha beta = 4) ∧
      (2 ≤ alpha → 2 ≤ beta → associate_parameter_regionTS alpha beta = 8) := by
  have axis_eq : ∀ q : ℚ, axisTS q = axisTS_spec q := by
    intro q
    unfold axisTS axisTS_spec
    rcases lt_or_le q 1 with h1 | h1
    · simp [h1]
    · rcases lt_or_le q 2 with h2 | h2
      · simp [not_lt.mpr h1, h1, h2]
      · simp [not_lt.mpr h1, not_lt.mpr h2, h2]
  refine ⟨by rw [associate_parameter_regionTS, axis_eq, axis_eq], ?_, ?_, ?_⟩
  · intro h1 h2
    simp [associate_parameter_regionTS, axisTS, h1, h2]
  · intro h1 h2 h3 h4
    have n1 : ¬ alpha < 1 := not_lt.mpr h1
    have n3 : ¬ beta < 1 := not_lt.mpr h3
    simp [associate_parameter_regionTS, axisTS, n1, n3, h1, h2, h3, h4]
    norm_num
  · intro h1 h2
    have n1 : ¬ alpha < 1 := not_lt.mpr (le_trans one_le_two h1)
    have n2 : ¬ alpha < 2 := not_lt.mpr h1
    have n3 : ¬ beta < 1 := not_lt.mpr (le_trans one_le_two h2)
    have n4 : ¬ beta < 2 := not_lt.mpr h2
    simp [associate_parameter_regionTS, axisTS, n1, n2, n3, n4, h1, h2]
    norm_num

/-- Witness for C8: the theorem applied at `(3/2, 3/2)`, whose label is 4. -/
theorem associate_parameter_regionTS_grid_witness :
    associate_parameter_regionTS (3/2) (3/2) =
      axisTS_spec (3/2) * 3 + axisTS_spec (3/2) :=
  (associate_parameter_regionTS_grid (3/2) (3/2) (by norm_num) (by norm_num)).1

/-- Claim C4: `skinny_newton` returns the iterated point only if its
residual norm improved on the residual at the unmodified start `x0`;
otherwise it returns `x0` itself, and (being a total function into the
state type) it never signals failure. -/
theorem skinny_newton_best_effort {α β : Type} (f : α → β) (nrm : β → ℚ)
    (update : α → α) (maxDefect : ℚ) (x0 : α) :
    skinny_newton f nrm update maxDefect x0 = x0 ∨
      nrm (f (skinny_newton f nrm update maxDefect x0)) < nrm (f x0) := by
  by_cases h : nrm (f (newton_loop f nrm update maxDefect 9 x0)) < maxDefect ∨
      nrm (f (newton_loop f nrm update maxDefect 9 x0)) < nrm (f x0)
  · rw [skinny_newton, if_pos h]
    rcases h with h1 | h2
    · rcases newton_loop_start f nrm update maxDefect 9 x0 with h0 | h0
      · exact Or.inl h0
      · exact Or.inr (lt_trans h1 h0)
    · exact Or.inr h2
  · rw [skinny_newton, if_neg h]
    exact Or.inl rfl

/-- Claim C6: the evaluation guard raises an indexing error exactly when
the state-vector length differs from the owner's declared state dimension
or the parsed parameter-vector length differs from the owner's declared
parameter count; when both lengths match it passes through to the wrapped
evaluation unchanged. -/
theorem verify_call_guard {β : Type} (N M : ℕ) (func : List ℚ → List ℚ → β)
    (x p : List ℚ) :
    (verify_call N M func x p = Except.ok (func x p) ↔
      (x.length = N ∧ p.length = M)) ∧
    ((¬ (x.length = N ∧ p.length = M)) ↔
      ∃ msg, verify_call N M func x p = Except.error msg) := by
  unfold verify_call
  by_cases h1 : x.length = N
  · by_cases h2 : p.length = M
    · simp [h1, h2]
    · simp [h1, h2]
  · simp [h1]

/-! ## Saddle-node search driver (saddle_finding.py, `find_saddle_coef`)

`find_saddle_coef` receives from `estimate_saddle_node` the parallel lists
`hill_for_saddle` / `equilibria_for_saddle` (modelled as one list of
pairs).  If no candidate hill-interval was produced it returns the literal
integer pair `(0, 0)`; otherwise it pops candidates from the end, runs the
saddle-node bordered solver (`SaddleNode.find_saddle_node`, from the
repository module `saddle_node` which is not in the source tree — it is
abstracted as the `solve` argument, with `ezcat` flattening applied), and
sorts each candidate into `SNParameters` (non-empty solver output,
rounded and de-duplicated by the abstracted `uniqRound`, modelling
`np.unique(np.round(·, 10))`) or `badCandidates`. -/

/-- The `while hill_for_saddle:` loop of `find_saddle_coef`; the input
list is already reversed so that structural recursion matches the
`pop()`-from-the-end order of the Python loop. -/
def saddle_loop {E : Type} (solve : ℚ → E → List ℚ)
    (uniqRound : List ℚ → List ℚ) :
    List (ℚ × E) → List (List ℚ) → List (ℚ × E) →
      List (List ℚ) × List (ℚ × E)
  | [], sn, bad => (sn, bad)
  | (hillValue, eqs) :: rest, sn, bad =>
      let jSols := solve hillValue eqs
      if 0 < jSols.length then
        saddle_loop solve uniqRound rest (sn ++ [uniqRound jSols]) bad
      else
        saddle_loop solve uniqRound rest sn (bad ++ [(hillValue, eqs)])

/-- `find_saddle_coef` from saddle_finding.py, with the candidate list
produced by `estimate_saddle_node` passed in and the external bordered
solver abstracted.  `Sum.inl` is the literal `return 0, 0` sentinel;
`Sum.inr` the pair `(SNParameters, badCandidates)`. -/
def find_saddle_coef {E : Type} (solve : ℚ → E → List ℚ)
    (uniqRound : List ℚ → List ℚ) (candidates : List (ℚ × E)) :
    (ℚ × ℚ) ⊕ (List (List ℚ) × List (ℚ × E)) :=
  if candidates.length = 0 then Sum.inl (0, 0)
  else Sum.inr (saddle_loop solve uniqRound candidates.reverse [] [])

/-- Claim C5: `find_saddle_coef` returns the literal pair `(0, 0)` exactly
when `estimate_saddle_node` produced no candidate hill-interval at all;
otherwise it returns the pair of lists, and any sentinel it ever returns
is literally `(0, 0)`. -/
theorem find_saddle_coef_sentinel {E : Type} (solve : ℚ → E → List ℚ)
    (uniqRound : List ℚ → List ℚ) (candidates : List (ℚ × E)) :
    (find_saddle_coef solve uniqRound candidates = Sum.inl (0, 0) ↔
      candidates = []) ∧
    (∀ a b : ℚ, find_saddle_coef solve uniqRound candidates = Sum.inl (a, b) →
      a = 0 ∧ b = 0) := by
  cases candidates with
  | nil =>
      constructor
      · simp [find_saddle_coef]
      · intro a b hab
        unfold find_saddle_coef at hab
        simp only [List.length_nil, ↓reduceIte, Sum.inl.injEq, Prod.mk.injEq] at hab
        exact ⟨hab.1.symm, hab.2.symm⟩
  | cons c rest =>
      constructor
      · simp [find_saddle_coef]
      · intro a b hab
        unfold find_saddle_coef at hab
        simp at hab

/-- Witness for C5: the theorem applied to the empty candidate list (with
a trivial solver), where the sentinel `(0, 0)` is returned. -/
theorem find_saddle_coef_sentinel_witness :
    find_saddle_coef (fun _ (_ : Unit) => ([] : List ℚ)) id
        ([] : List (ℚ × Unit)) = Sum.inl (0, 0) ∧ ((0 : ℚ) = 0 ∧ (0 : ℚ) = 0) := by
  have h := find_saddle_coef_sentinel (fun _ (_ : Unit) => ([] : List ℚ)) id
    ([] : List (ℚ × Unit))
  exact ⟨h.1.mpr rfl, h.2 0 0 (h.1.mpr rfl)⟩

/-! ## Hopf bordered map (Hopf_bifurcation.py)

The `Hopf` class advertises (docstrings, `mapDimension = 3n + 1`) a
bordered map `g : R^{3n+1+m} → R^{3n+1}` whose input is
`u = (x, Re v, Im v, Im lambda, p)`.  Its `unpack_components`, however,
splits `u` into only the three pieces `(u[:n], u[n:2n], u[2n:])` — the
saddle-node layout its own docstring names — while `__call__` destructures
the result into five names, so Python raises
`ValueError: not enough values to unpack` on every input. -/

namespace Hopf

/-- `Hopf.unpack_components(u)`: returns the three slices
`(u[:n], u[n:2n], u[2n:])` where `n = model.dimension`. -/
def unpack_components (n : ℕ) (u : List ℚ) : List (List ℚ) :=
  [u.take n, (u.drop n).take n, u.drop (2 * n)]

/-- Matrix-vector product `A @ v` for the Jacobian blocks. -/
def matVec (A : List (List ℚ)) (v : List ℚ) : List ℚ :=
  A.map (fun row => (List.zipWith (fun a b => a * b) row v).sum)

/-- Componentwise vector sum. -/
def vecAdd (v w : List ℚ) : List ℚ := List.zipWith (fun a b => a + b) v w

/-- Scalar multiple of a vector. -/
def smulVec (c : ℚ) (v : List ℚ) : List ℚ := v.map (fun a => c * a)

/-- `Hopf.__call__(u)`: destructure `unpack_components(u)` into the five
names `(stateVector, RealEigenvector, ImagEigenvector, ImagEigenvalue,
fullParameter)` — `none` models the `ValueError` Python raises when the
destructuring fails — then assemble `ezcat(g1, g2, g3, g4)`.  The model's
evaluation `F`, state Jacobian `Dx` and the phase condition are passed in
(`self.model` and `self.phaseCondition` in the source). -/
def call (n : ℕ) (F : List ℚ → List ℚ → List ℚ)
    (Dx : List ℚ → List ℚ → List (List ℚ))
    (phase : List ℚ → List ℚ → ℚ) (u : List ℚ) : Option (List ℚ) :=
  match unpack_components n u with
  | [stateVector, realEigenvector, imagEigenvector, imagEigenvalue,
     fullParameter] =>
      let g1 := F stateVector fullParameter
      let g2 := vecAdd (matVec (Dx stateVector fullParameter) realEigenvector)
        (smulVec (imagEigenvalue.headD 0) imagEigenvector)
      let g3 := vecAdd (matVec (Dx stateVector fullParameter) imagEigenvector)
        (smulVec (imagEigenvalue.headD 0) realEigenvector)
      let g4 := phase realEigenvector imagEigenvector
      some (g1 ++ g2 ++ g3 ++ [g4])
  | _ => none

end Hopf

/-- Claim C1 (refuting evaluation): `Hopf.unpack_components` always
produces exactly three components, so `Hopf.__call__`'s five-name
destructuring fails and the call never returns the concatenated vector
`(g1, g2, g3, g4)` — for every model, phase condition, dimension and
input vector it raises (returns `none`) instead. -/
theorem hopf_call_raises (n : ℕ) (F : List ℚ → List ℚ → List ℚ)
    (Dx : List ℚ → List ℚ → List (List ℚ))
    (phase : List ℚ → List ℚ → ℚ) (u : List ℚ) :
    (Hopf.unpack_components n u).length = 3 ∧
      Hopf.call n F Dx phase u = none := by
  exact ⟨rfl, rfl⟩

/-! ## Hill component (hill_model.py, `HillComponent`)

Methods receive the state value `x` and the parameter quadruple
`(ell, delta, theta, hillCoefficient)` already resolved by
`curry_parameters` from the fixed and variable entries.  The external
float power `**` and `np.log` are the arguments `powf` and `logf`. -/

/-- Names of the four Hill component parameters (`PARAMETER_NAMES`); a
derivative request resolves `variableParameters[diffIndex]` to one of
these. -/
inductive PName : Type
  | ell : PName
  | delta : PName
  | theta : PName
  | hillCoefficient : PName
deriving DecidableEq

/-- Concrete instantiation of the external float power used by witnesses:
exponentiation by the numerator of the exponent (agrees with `**` at the
natural-number exponents all concrete inputs below use). -/
def powQ (a e : ℚ) : ℚ := a ^ e.num.toNat

namespace HillComponent

/-- The precomputed fraction `x/theta` (decreasing sign) or `theta/x`
(increasing sign). -/
def fraction (sign : ℤ) (x theta : ℚ) : ℚ :=
  if sign = -1 then x / theta else theta / x

/-- The precomputed fraction-power term `(x/theta)**n` or `(theta/x)**n`
appearing in every Hill component derivative. -/
def fraction_power (powf : ℚ → ℚ → ℚ) (sign : ℤ)
    (x theta hillCoefficient : ℚ) : ℚ :=
  if sign = -1 then powf (x / theta) hillCoefficient
  else powf (theta / x) hillCoefficient

/-- `HillComponent.__call__`: `ell + delta / (1 + fraction ** n)`. -/
def call (powf : ℚ → ℚ → ℚ) (sign : ℤ)
    (x ell delta theta hillCoefficient : ℚ) : ℚ :=
  ell + delta / (1 + powf (fraction sign x theta) hillCoefficient)

/-- `HillComponent.dx`: returns 0 when the fraction-power term is 0,
otherwise `sign * n * delta / (x * (1/f + 2 + f))`. -/
def dx (powf : ℚ → ℚ → ℚ) (sign : ℤ)
    (x ell delta theta hillCoefficient : ℚ) : ℚ :=
  let fp := fraction_power powf sign x theta hillCoefficient
  if fp = 0 then 0
  else (sign : ℚ) * hillCoefficient * delta / (x * (1 / fp + 2 + fp))

/-- `HillComponent.dx2`: returns 0 when the fraction-power term is 0. -/
def dx2 (powf : ℚ → ℚ → ℚ) (sign : ℤ)
    (x ell delta theta hillCoefficient : ℚ) : ℚ :=
  let fp := fraction_power powf sign x theta hillCoefficient
  if fp = 0 then 0
  else hillCoefficient * delta / x ^ 2 *
    (2 * hillCoefficient / (1 / fp ^ 2 + 3 / fp + 3 + fp) +
      (-(sign : ℚ) - hillCoefficient) / (1 / fp + 2 + fp))

/-- `HillComponent.diff`: first derivative with respect to the named
parameter.  `ell` returns the literal 1 before anything else is computed;
the other branches use the fraction-power term with no underflow guard. -/
def diff (powf : ℚ → ℚ → ℚ) (logf : ℚ → ℚ) (sign : ℤ)
    (x ell delta theta hillCoefficient : ℚ) (diffParameter : PName) : ℚ :=
  match diffParameter with
  | PName.ell => 1
  | PName.delta =>
      let fp := fraction_power powf sign x theta hillCoefficient;
      1 / (fp + 1)
  | PName.theta =>
      let fp := fraction_power powf sign x theta hillCoefficient;
      -(sign : ℚ) * (delta * hillCoefficient) / (theta * (fp + 2 + 1 / fp))
  | PName.hillCoefficient =>
      let fp := fraction_power powf sign x theta hillCoefficient;
      -delta * logf (fraction sign x theta) / (fp + 2 + 1 / fp)

end HillComponent

/-- Claim C2 (refuting evaluation): at the decreasing-sign component with
`x = 0`, `(ell, delta, theta, n) = (0, 1, 1, 2)` the fraction-power term
`(x/theta)**n` evaluates to exactly 0, yet the parameter derivative with
respect to `delta` returns `1/(0+1) = 1`, not 0 (and the `ell` derivative
is the literal 1) — so not every derivative returns 0 there. -/
theorem hill_derivative_underflow_counterexample :
    HillComponent.fraction_power powQ (-1) 0 1 2 = 0 ∧
      HillComponent.diff powQ (fun _ => 0) (-1) 0 0 1 1 2 PName.delta = 1 ∧
      HillComponent.diff powQ (fun _ => 0) (-1) 0 0 1 1 2 PName.delta ≠ 0 := by
  refine ⟨?_, ?_, ?_⟩ <;>
    simp [HillComponent.diff, HillComponent.fraction_power, powQ]

/-- Claim C2 (amended): when the fraction-power term evaluates to exactly
0, the guarded state derivatives `dx` and `dx2` return exactly 0, while
the parameter derivative `diff` returns 1 with respect to `ell`
(unconditionally) and `1/(0+1) = 1` with respect to `delta`; so the
saturation-to-zero behaviour holds for the guarded state derivatives but
not for every derivative. -/
theorem hill_guarded_derivatives_saturate (powf : ℚ → ℚ → ℚ) (logf : ℚ → ℚ)
    (sign : ℤ) (x ell delta theta hillCoefficient : ℚ)
    (h0 : HillComponent.fraction_power powf sign x theta hillCoefficient = 0) :
    HillComponent.dx powf sign x ell delta theta hillCoefficient = 0 ∧
      HillComponent.dx2 powf sign x ell delta theta hillCoefficient = 0 ∧
      HillComponent.diff powf logf sign x ell delta theta hillCoefficient
        PName.ell = 1 ∧
      HillComponent.diff powf logf sign x ell delta theta hillCoefficient
        PName.delta = 1 := by
  refine ⟨?_, ?_, rfl, ?_⟩
  · simp [HillComponent.dx, h0]
  · simp [HillComponent.dx2, h0]
  · simp [HillComponent.diff, h0]

/-- Witness for the amended C2: the component of the counterexample,
where the fraction-power term is exactly 0 and `dx` returns 0. -/
theorem hill_guarded_derivatives_saturate_witness :
    HillComponent.fraction_power powQ (-1) 0 1 2 = 0 ∧
      HillComponent.dx powQ (-1) 0 0 1 1 2 = 0 :=
  ⟨by simp [HillComponent.fraction_power, powQ],
    (hill_guarded_derivatives_saturate powQ (fun _ => 0) (-1) 0 0 1 1 2
      (by simp [HillComponent.fraction_power, powQ])).1⟩

/-! ## Dataset subsampling (create_dataset.py)

`subsample` / `region_subsample` load a persisted dataset (`data` with
parameters as rows and samples as columns, `parameter_region`,
`optimal_coef` — passed in directly here) and draw `size_subsample`
columns uniformly with replacement (`np.random.randint`, abstracted as
`pick`).  On the insufficient-samples path both evaluate the bare name
`stopHere`, which is defined nowhere, so Python raises `NameError`. -/

/-- The two kinds of error these paths can raise: a `NameError` from
evaluating an undefined identifier, or an explicit `Exception` with a
message (as `subsample_data_by_region` raises). -/
inductive PyError : Type
  | nameError : String → PyError
  | exception : String → PyError
deriving DecidableEq

/-- `subsample(file_name, size_subsample)` from create_dataset.py, after
`load_dataset`: `size_data = np.size(data, 1)` is the column count. -/
def subsample (pick : ℕ → ℕ → List ℕ) (data : List (List ℚ))
    (regions : List ℚ) (coefs : List ℚ) (size_subsample : ℕ) :
    Except PyError (List (List ℚ) × List ℚ × List ℚ) :=
  let size_data := (data.headD []).length
  if size_subsample > size_data then
    Except.error (PyError.nameError "stopHere is not defined")
  else
    let index_random := pick size_data size_subsample
    Except.ok (data.map (fun row => index_random.map (fun i => row.getD i 0)),
      index_random.map (fun i => regions.getD i 0), coefs)

/-- `region_subsample(file_name, region_number, size_subsample)` from
create_dataset.py: first restrict `data` to the columns whose region
label equals `region_number`, then guard and draw as in `subsample`. -/
def region_subsample (pick : ℕ → ℕ → List ℕ) (data : List (List ℚ))
    (regions : List ℚ) (coefs : List ℚ) (region_number : ℚ)
    (size_subsample : ℕ) : Except PyError (List (List ℚ) × List ℚ) :=
  let subindex_selection :=
    (List.range regions.length).filter (fun i => regions.getD i 0 = region_number)
  let dataF := data.map (fun row => subindex_selection.map (fun i => row.getD i 0))
  let size_data := (dataF.headD []).length
  if size_subsample > size_data then
    Except.error (PyError.nameError "stopHere is not defined")
  else
    let index_random := pick size_data size_subsample
    Except.ok (dataF.map (fun row => index_random.map (fun i => row.getD i 0)), coefs)

/-- Claim C9 (what the code actually does): whenever the requested
subsample size strictly exceeds the available (optionally
region-filtered) pool, `subsample` and `region_subsample` do fail — but
by evaluating the undefined name `stopHere` (a `NameError`), not by
raising the explicit "insufficient samples" error the claim describes;
no truncated or padded result is returned. -/
theorem subsample_insufficient_nameError (pick : ℕ → ℕ → List ℕ)
    (data : List (List ℚ)) (regions coefs : List ℚ) (region_number : ℚ)
    (size_subsample : ℕ) :
    ((data.headD []).length < size_subsample →
      subsample pick data regions coefs size_subsample =
        Except.error (PyError.nameError "stopHere is not defined")) ∧
    ((((data.map (fun row =>
          ((List.range regions.length).filter
            (fun i => regions.getD i 0 = region_number)).map
              (fun i => row.getD i 0))).headD []).length < size_subsample) →
      region_subsample pick data regions coefs region_number size_subsample =
        Except.error (PyError.nameError "stopHere is not defined")) := by
  constructor
  · intro h
    rw [subsample]
    simp only [gt_iff_lt, h, if_pos]
  · intro h
    rw [region_subsample]
    simp only [gt_iff_lt, h, if_pos]

/-- Witness for C9: a dataset with two columns and a request of size
three hits the `NameError` path in both operations. -/
theorem subsample_insufficient_nameError_witness :
    subsample (fun _ _ => []) [[1, 2], [3, 4]] [0, 1] [5] 3 =
      Except.error (PyError.nameError "stopHere is not defined") ∧
    region_subsample (fun _ _ => []) [[1, 2], [3, 4]] [0, 1] [5] 0 3 =
      Except.error (PyError.nameError "stopHere is not defined") :=
  ⟨(subsample_insufficient_nameError (fun _ _ => []) [[1, 2], [3, 4]] [0, 1]
      [5] 0 3).1 (by decide),
    (subsample_insufficient_nameError (fun _ _ => []) [[1, 2], [3, 4]] [0, 1]
      [5] 0 3).2 (by decide)⟩

/-! ## Rigorous equilibrium radii and de-duplication (hill_model.py)

`HillModel.radii_uniqueness_existence` computes the norm bounds
`Y = ‖A·F(x*)‖`, `Z0 = ‖I − A·DF(x*)‖` and `Z2 = ‖A‖·opnorm(D2F(x*))`
with `A = DF(x*)⁻¹` (external `np.linalg` computations, passed in as the
resulting rationals), clamps `Z2` to `1e-8` when below `1e-16`, forms
`delta = 1 − 4·(Z0+Y)·Z2` and returns the radius pair.  `np.sqrt` is the
argument `sqrtf` (only reached when `delta ≥ 0`; the `np.isnan(delta)`
disjunct of the guard has no rational counterpart since `ℚ` has no NaN). -/

/-- The radius computation of `HillModel.radii_uniqueness_existence`
after the linear-algebra bounds `Y_bound`, `Z0_bound`, `Z2_bound` have
been computed. -/
def radii_uniqueness_existence (sqrtf : ℚ → ℚ)
    (Y_bound Z0_bound Z2_in : ℚ) : ℚ × ℚ :=
  let Z2_bound := if Z2_in < 1 / 10 ^ 16 then 1 / 10 ^ 8 else Z2_in
  let delta := 1 - 4 * (Z0_bound + Y_bound) * Z2_bound
  if delta < 0 then (0, 0)
  else
    (min ((1 + sqrtf delta) / (2 * Z2_bound)) (1 / 10),
      (1 - sqrtf delta) / (2 * Z2_bound))

/-- The inner `while j < len(radii2)` loop of the de-duplication pass in
`HillModel.find_equilibria`, acting on the suffix of the current list
from position `i + 1`: delete `(e2, r2)` whenever
`norm(e1 − e2) < max(r1, r2)` (deleting keeps `j` in place, so the
recursion simply moves on to the rest), otherwise keep it. -/
def merge_from {α : Type} (dist : α → α → ℚ) (e1 : α) (r1 : ℚ) :
    List (α × ℚ) → List (α × ℚ)
  | [] => []
  | (e2, r2) :: rest =>
      if dist e1 e2 < max r1 r2 then merge_from dist e1 r1 rest
      else (e2, r2) :: merge_from dist e1 r1 rest

/-- The outer `for i in range(len(all_equilibria))` loop of the
de-duplication pass: `orig` is the untouched `all_equilibria`/`radii`
pair list, `cur` the mutating `unique_equilibria`/`radii2` pair list;
the fuel is the original length. -/
def merge_loop {α : Type} (dist : α → α → ℚ) (orig : List (α × ℚ)) :
    ℕ → ℕ → List (α × ℚ) → List (α × ℚ)
  | 0, _, cur => cur
  | fuel + 1, i, cur =>
      if h : i < orig.length then
        let p := orig.get ⟨i, h⟩
        merge_loop dist orig fuel (i + 1)
          (cur.take (i + 1) ++ merge_from dist p.1 p.2 (cur.drop (i + 1)))
      else cur

/-- The whole de-duplication pass of `find_equilibria` on the rounded
candidate list paired with its `max_rad` radii. -/
def merge_equilibria {α : Type} (dist : α → α → ℚ)
    (all_equilibria : List (α × ℚ)) : List (α × ℚ) :=
  merge_loop dist all_equilibria all_equilibria.length 0 all_equilibria

/-- With `r1 = 0` and every retained radius 0, nothing is deleted. -/
theorem merge_from_zero_radii {α : Type} (dist : α → α → ℚ)
    (hdist : ∀ a b : α, 0 ≤ dist a b) (e1 : α) :
    ∀ cur : List (α × ℚ), (∀ pr ∈ cur, pr.2 = 0) →
      merge_from dist e1 0 cur = cur := by
  intro cur
  induction cur with
  | nil => intro _; rfl
  | cons pr rest ih =>
      intro hall
      obtain ⟨e2, r2⟩ := pr
      have hr2 : r2 = 0 := hall (e2, r2) (List.mem_cons_self _ _)
      have hcond : ¬ dist e1 e2 < max 0 r2 := by
        rw [hr2, max_self]
        exact not_lt.mpr (hdist e1 e2)
      rw [merge_from, if_neg hcond,
        ih (fun pr hpr => hall pr (List.mem_cons_of_mem _ hpr))]

/-- When every radius in both the original and the current list is 0, the
merge loop leaves the current list unchanged. -/
theorem merge_loop_zero_radii {α : Type} (dist : α → α → ℚ)
    (hdist : ∀ a b : α, 0 ≤ dist a b) (orig : List (α × ℚ))
    (horig : ∀ pr ∈ orig, pr.2 = 0) :
    ∀ (fuel i : ℕ) (cur : List (α × ℚ)), (∀ pr ∈ cur, pr.2 = 0) →
      merge_loop dist orig fuel i cur = cur := by
  intro fuel
  induction fuel with
  | zero => intro i cur _; rfl
  | succ fuel ih =>
      intro i cur hcur
      rw [merge_loop]
      by_cases h : i < orig.length
      · rw [dif_pos h]
        have hp : (orig.get ⟨i, h⟩).2 = 0 := horig _ (orig.get_mem _ _)
        have hdrop : ∀ pr ∈ cur.drop (i + 1), pr.2 = 0 := fun pr hpr =>
          hcur pr (List.mem_of_mem_drop hpr)
        show merge_loop dist orig fuel (i + 1)
          (cur.take (i + 1) ++ merge_from dist (orig.get ⟨i, h⟩).1
            (orig.get ⟨i, h⟩).2 (cur.drop (i + 1))) = cur
        rw [hp, merge_from_zero_radii dist hdist _ _ hdrop,
          List.take_append_drop]
        exact ih (i + 1) cur hcur
      · rw [dif_neg h]

/-- Claim C3 (refuting evaluation): in the de-duplication pass on the
1-dimensional candidates `[(1, 5), (3/2, 0)]` (distance `1/2`, radii 5
and 0), the radius-0 equilibrium `3/2` is merged into (deleted in favour
of) the radius-5 equilibrium `1`, because the merge test compares the
distance against the *maximum* of the two radii — so an equilibrium with
radius 0 can be merged with another equilibrium. -/
theorem merge_radius_zero_counterexample :
    merge_equilibria (fun a b : ℚ => |a - b|) [(1, 5), (3/2, 0)] =
      [(1, 5)] := by
  norm_num [merge_equilibria, merge_loop, merge_from, List.get, abs_lt]

/-- Claim C3 (amended): whenever `delta < 0` is computed the returned
radius pair is exactly `(0, 0)`, and the merge test requires the distance
to lie strictly below the maximum of the two radii — so two radius-0
equilibria are never merged with each other (the whole pass is the
identity when every radius is 0), though a radius-0 equilibrium can still
be merged into one whose own radius is strictly positive. -/
theorem radii_delta_negative_no_mutual_merge {α : Type} (sqrtf : ℚ → ℚ)
    (Y_bound Z0_bound Z2_in : ℚ)
    (hdelta : 1 - 4 * (Z0_bound + Y_bound) *
      (if Z2_in < 1 / 10 ^ 16 then 1 / 10 ^ 8 else Z2_in) < 0)
    (dist : α → α → ℚ) (hdist : ∀ a b : α, 0 ≤ dist a b)
    (all_equilibria : List (α × ℚ))
    (hzero : ∀ pr ∈ all_equilibria, pr.2 = 0) :
    radii_uniqueness_existence sqrtf Y_bound Z0_bound Z2_in = (0, 0) ∧
      merge_equilibria dist all_equilibria = all_equilibria := by
  constructor
  · rw [radii_uniqueness_existence]
    simp only [hdelta, if_pos]
  · exact merge_loop_zero_radii dist hdist all_equilibria hzero _ _
      all_equilibria hzero

/-- Witness for the amended C3: bounds `Y = Z0 = Z2 = 1` give
`delta = −7 < 0` and the radius pair `(0, 0)`; the radius-0 candidates
`[(1, 0), (2, 0)]` survive the merge pass unchanged. -/
theorem radii_delta_negative_no_mutual_merge_witness :
    radii_uniqueness_existence id 1 1 1 = (0, 0) ∧
      merge_equilibria (fun a b : ℚ => |a - b|) [(1, 0), (2, 0)] =
        [(1, 0), (2, 0)] :=
  radii_delta_negative_no_mutual_merge id 1 1 1 (by norm_num)
    (fun a b : ℚ => |a - b|) (fun a b => abs_nonneg (a - b))
    [(1, 0), (2, 0)]
    (by
      intro pr hpr
      simp only [List.mem_cons, List.not_mem_nil, or_false] at hpr
      rcases hpr with rfl | rfl <;> rfl)

/-! ## Summand partition (hill_model.py, `HillCoordinate.set_summand`)

`set_summand` slices `localIndex = list(range(nProduction))` at the
endpoint vector `np.insert(np.cumsum(productionType), 0, 0)`; the
resulting lists are the index groups ("summands") every summand-based
evaluation and derivative method works with. -/

/-- `np.insert(np.cumsum(ns), 0, 0)`: the running-sum endpoints
`[0, n1, n1+n2, ...]` (length `ns.length + 1`). -/
def cumsum0 : List ℕ → List ℕ
  | [] => [0]
  | t :: rest => 0 :: (cumsum0 rest).map (fun a => t + a)

/-- Slice a list at consecutive `cumsum0` endpoints — the Python slices
`localIndex[sumEndpoints[i]:sumEndpoints[i+1]]` for `i` up to the number
of summands. -/
def slice_chunks {y : Type} (pt : List ℕ) (L : List y) : List (List y) :=
  (List.range pt.length).map (fun i =>
    (L.drop ((cumsum0 pt).getD i 0)).take
      ((cumsum0 pt).getD (i + 1) 0 - (cumsum0 pt).getD i 0))

/-- `HillCoordinate.set_summand` from hill_model.py. -/
def set_summand (productionType : List ℕ) (nProduction : ℕ) :
    List (List ℕ) :=
  slice_chunks productionType (List.range nProduction)

/-- Recursive reference form of consecutive slicing: take the first
chunk, recurse on the remainder. -/
def chunks {y : Type} : List ℕ → List y → List (List y)
  | [], _ => []
  | t :: rest, L => L.take t :: chunks rest (L.drop t)

theorem cumsum0_length (ns : List ℕ) : (cumsum0 ns).length = ns.length + 1 := by
  induction ns with
  | nil => rfl
  | cons t rest ih => simp [cumsum0, ih]

theorem cumsum0_getD_zero (ns : List ℕ) : (cumsum0 ns).getD 0 0 = 0 := by
  cases ns <;> rfl

theorem getD_map_add (t : ℕ) : ∀ (c : List ℕ) (i : ℕ), i < c.length →
    (c.map (fun a => t + a)).getD i 0 = t + c.getD i 0 := by
  intro c
  induction c with
  | nil => intro i hi; simp at hi
  | cons a rest ih =>
      intro i hi
      cases i with
      | zero => rfl
      | succ i =>
          simp only [List.map_cons, List.getD_cons_succ]
          exact ih i (by simpa using hi)

theorem cumsum0_cons_getD_one (t : ℕ) (rest : List ℕ) :
    (cumsum0 (t :: rest)).getD 1 0 = t := by
  have h0 : (cumsum0 rest).getD 0 0 = 0 := cumsum0_getD_zero rest
  have hlt : 0 < (cumsum0 rest).length := by rw [cumsum0_length]; omega
  calc (cumsum0 (t :: rest)).getD 1 0
      = ((cumsum0 rest).map (fun a => t + a)).getD 0 0 := rfl
    _ = t + (cumsum0 rest).getD 0 0 := getD_map_add t (cumsum0 rest) 0 hlt
    _ = t := by rw [h0]; exact Nat.add_zero t

theorem slice_chunks_eq_chunks {y : Type} :
    ∀ (pt : List ℕ) (L : List y), slice_chunks pt L = chunks pt L := by
  intro pt
  induction pt with
  | nil => intro L; rfl
  | cons t rest ih =>
      intro L
      show (List.range (rest.length + 1)).map _ = _
      rw [List.range_succ_eq_map, List.map_cons, List.map_map, chunks]
      have hhead :
          (L.drop ((cumsum0 (t :: rest)).getD 0 0)).take
            ((cumsum0 (t :: rest)).getD 1 0 - (cumsum0 (t :: rest)).getD 0 0) =
          L.take t := by
        rw [cumsum0_cons_getD_one, cumsum0_getD_zero, List.drop_zero,
          Nat.sub_zero]
      rw [hhead]
      congr 1
      have htail : ∀ i ∈ List.range rest.length,
          ((fun j => (L.drop ((cumsum0 (t :: rest)).getD j 0)).take
            ((cumsum0 (t :: rest)).getD (j + 1) 0 -
              (cumsum0 (t :: rest)).getD j 0)) ∘ Nat.succ) i =
          ((L.drop t).drop ((cumsum0 rest).getD i 0)).take
            ((cumsum0 rest).getD (i + 1) 0 - (cumsum0 rest).getD i 0) := by
        intro i hi
        have hi1 : i < (cumsum0 rest).length := by
          rw [cumsum0_length]
          exact Nat.lt_succ_of_lt (List.mem_range.mp hi)
        have hi2 : i + 1 < (cumsum0 rest).length := by
          rw [cumsum0_length]
          exact Nat.succ_lt_succ (List.mem_range.mp hi)
        have e1 : (cumsum0 (t :: rest)).getD (i + 1) 0 =
            t + (cumsum0 rest).getD i 0 := by
          show ((cumsum0 rest).map (fun a => t + a)).getD i 0 = _
          exact getD_map_add t (cumsum0 rest) i hi1
        have e2 : (cumsum0 (t :: rest)).getD (i + 2) 0 =
            t + (cumsum0 rest).getD (i + 1) 0 := by
          show ((cumsum0 rest).map (fun a => t + a)).getD (i + 1) 0 = _
          exact getD_map_add t (cumsum0 rest) (i + 1) hi2
        show (L.drop ((cumsum0 (t :: rest)).getD (i + 1) 0)).take
            ((cumsum0 (t :: rest)).getD (i + 2) 0 -
              (cumsum0 (t :: rest)).getD (i + 1) 0) = _
        rw [e1, e2, Nat.add_sub_add_left, ← List.drop_drop]
      rw [List.map_congr_left htail]
      exact ih (L.drop t)

theorem chunks_flatten {y : Type} :
    ∀ (ns : List ℕ) (L : List y), ns.sum = L.length →
      (chunks ns L).flatten = L := by
  intro ns
  induction ns with
  | nil =>
      intro L h
      have : L = [] := List.eq_nil_of_length_eq_zero (by simpa using h.symm)
      rw [this]
      rfl
  | cons t rest ih =>
      intro L h
      rw [List.sum_cons] at h
      have hlen : rest.sum = (L.drop t).length := by
        rw [List.length_drop]
        omega
      rw [chunks, List.flatten_cons, ih (L.drop t) hlen,
        List.take_append_drop]

/-- Claim C10: when the production-type entries sum to the number `K` of
production components, `set_summand` returns an ordered partition of
`{0, …, K−1}`: one index list per summand whose in-order concatenation is
exactly `(0, 1, …, K−1)` (hence the lists are pairwise disjoint and each
consists of consecutive indices). -/
theorem set_summand_partition (productionType : List ℕ) (K : ℕ)
    (h : productionType.sum = K) :
    (set_summand productionType K).flatten = List.range K ∧
      (set_summand productionType K).length = productionType.length := by
  constructor
  · rw [set_summand, slice_chunks_eq_chunks,
      chunks_flatten productionType (List.range K) (by simp [h])]
  · simp [set_summand, slice_chunks]

/-- Witness for C10: the docstring example `productionType = [2,1,3,1]`
with `K = 7`, whose summand lists concatenate to `(0, …, 6)`. -/
theorem set_summand_partition_witness :
    (set_summand [2, 1, 3, 1] 7).flatten = List.range 7 ∧
      (set_summand [2, 1, 3, 1] 7).length = 4 :=
  set_summand_partition [2, 1, 3, 1] 7 (by decide)

/-! ## Hill coordinate production derivatives (hill_model.py)

A `HillCoordinate` owns `K = nProduction` Hill components (signs and
resolved parameter quadruples), and a `productionType` partition of `K`.
`diff_production(x, parameter, diffOrder)` is the outer chain-rule term:
the full derivative tensor of the interaction function evaluated at the
component values. -/

structure HillCoordinate : Type where
  productionSign : List ℤ
  productionParameters : List (ℚ × ℚ × ℚ × ℚ)
  productionType : List ℕ

/-- `nProduction = len(productionSign)`. -/
def HillCoordinate.nProduction (C : HillCoordinate) : ℕ :=
  C.productionSign.length

/-- `self.summand = self.set_summand()`. -/
def HillCoordinate.summand (C : HillCoordinate) : List (List ℕ) :=
  set_summand C.productionType C.nProduction

/-- `HillCoordinate.summand_index`: the index of the first summand list
containing the given component index. -/
def summand_index (summand : List (List ℕ)) (componentIdx : ℕ) : ℕ :=
  summand.findIdx (fun L => L.contains componentIdx)

/-- `HillCoordinate.evaluate_summand`: sum the component values within
each summand. -/
def evaluate_summand (summand : List (List ℕ))
    (componentValues : List ℚ) : List ℚ :=
  summand.map (fun L => (L.map (fun i => componentValues.getD i 0)).sum)

/-- `HillCoordinate.evaluate_production_components`: evaluate each Hill
component at its state coordinate and resolved parameters. -/
def evaluate_production_components (powf : ℚ → ℚ → ℚ) (C : HillCoordinate)
    (xs : List ℚ) : List ℚ :=
  List.zipWith (fun sp x =>
      HillComponent.call powf sp.1 x sp.2.1 sp.2.2.1 sp.2.2.2.1 sp.2.2.2.2)
    (C.productionSign.zip C.productionParameters) xs

/-- `HillCoordinate.diff_production(x, parameter, 1)` (full first
differential of the interaction function as a vector in `R^K`): the
all-ones vector in the single-summand case, otherwise the per-component
broadcast of `fullProduct / summandValue`. -/
def diff_production1 (powf : ℚ → ℚ → ℚ) (C : HillCoordinate)
    (xs : List ℚ) : List ℚ :=
  if C.productionType.length = 1 then List.replicate C.nProduction 1
  else
    let cv := evaluate_production_components powf C xs
    let sv := evaluate_summand C.summand cv
    let fullProduct := sv.prod
    let DxProducts := sv.map (fun s => fullProduct / s)
    (List.range C.nProduction).map
      (fun k => DxProducts.getD (summand_index C.summand k) 0)

/-- `HillCoordinate.diff_production(x, parameter, 2)` (full second
differential as a `K × K` tensor): the zero tensor in the single-summand
case; the 0/1 cross-summand indicator for two summands; otherwise the
cross-summand entries `DxProducts[row] * (1 / summandValues[col])` with
zero same-summand blocks. -/
def diff_production2 (powf : ℚ → ℚ → ℚ) (C : HillCoordinate)
    (xs : List ℚ) : List (List ℚ) :=
  if C.productionType.length = 1 then
    List.replicate C.nProduction (List.replicate C.nProduction 0)
  else if C.productionType.length = 2 then
    (List.range C.nProduction).map (fun i =>
      (List.range C.nProduction).map (fun j =>
        if summand_index C.summand i ≠ summand_index C.summand j then 1
        else 0))
  else
    let cv := evaluate_production_components powf C xs
    let sv := evaluate_summand C.summand cv
    let fullProduct := sv.prod
    let DxProducts := sv.map (fun s => fullProduct / s)
    (List.range C.nProduction).map (fun i =>
      (List.range C.nProduction).map (fun j =>
        if summand_index C.summand i = summand_index C.summand j then 0
        else DxProducts.getD (summand_index C.summand i) 0 *
          (1 / sv.getD (summand_index C.summand j) 0)))

/-- Claim C7: for a coordinate whose production type is the single
summand `[K]` (pure-sum interaction), the first derivative of the
interaction function is exactly 1 in every production component (the
all-ones vector at order 1) and the second derivative with respect to any
two production components is exactly 0 (the zero tensor at order 2), for
every state/parameter input. -/
theorem diff_production_pure_sum (powf : ℚ → ℚ → ℚ) (C : HillCoordinate)
    (xs : List ℚ) (h : C.productionType = [C.nProduction]) :
    diff_production1 powf C xs = List.replicate C.nProduction 1 ∧
      diff_production2 powf C xs =
        List.replicate C.nProduction (List.replicate C.nProduction 0) := by
  have h1 : C.productionType.length = 1 := by rw [h]; rfl
  constructor
  · rw [diff_production1, if_pos h1]
  · rw [diff_production2, if_pos h1]

/-- Witness for C7: a two-component pure-sum coordinate
(`productionType = [2]`, one increasing and one decreasing component)
evaluated at `x = (1, 2)`. -/
theorem diff_production_pure_sum_witness :
    diff_production1 powQ
        ⟨[1, -1], [(0, 1, 1, 2), (0, 1, 1, 2)], [2]⟩ [1, 2] =
      List.replicate 2 1 ∧
    diff_production2 powQ
        ⟨[1, -1], [(0, 1, 1, 2), (0, 1, 1, 2)], [2]⟩ [1, 2] =
      List.replicate 2 (List.replicate 2 0) :=
  diff_production_pure_sum powQ
    ⟨[1, -1], [(0, 1, 1, 2), (0, 1, 1, 2)], [2]⟩ [1, 2] rfl

end HillRepo
